import Mathlib

/-!
Verification of the vidirr rename/copy resolution engine.

This file gives a shallow embedding, in Lean 4, of the core components of
the vidirr repository (src/editor.rs, src/ops.rs):

* the Numberer (write_with_ids) and the Line Parser (parse_line);
* the Temp-Name Generator (get_unique_tmp_name);
* the Operator resolution engine (apply_changes, update_items, update_dir).

Modelling conventions:

* Rust HashMap<usize, String> becomes an association list with unique keys
  (FMap); HashMap::get / insert / remove become FMap.lookup / FMap.insertMap /
  FMap.erase, and iter_mut value rewrites become FMap.mapVal.
* The filesystem is a finite association list from path strings to entries
  (a file with an abstract content tag, or a directory).  Path::try_exists
  inside apply_changes is modelled as the (total) lookup on that list; an
  erroring existence check is modelled separately for the Temp-Name
  Generator, the only place where the claims concern it.
* The injected Operation capability (trait Operation) is modelled by an
  environment of failure oracles for rename and copy: none means the OS call
  succeeds and its effect is applied to the model filesystem, some c means
  it fails with underlying cause c, which the trait default implementations
  wrap into OpsError.failRename / OpsError.failCopy carrying both paths.
* fs::create_dir_all is modelled as always succeeding (its failure is not
  the subject of any claim).
* Every filesystem call made by apply_changes is recorded in a trace, so
  that claims of the form "performs no filesystem call" are statable.
* Strings are Lean strings; Rust's byte indexing is modelled by character
  indexing (all paths in the claims are ASCII), char::is_numeric and
  char::is_whitespace by Char.isDigit and Char.isWhitespace, and usize by
  Nat (the claims do not concern numeric overflow).
-/

namespace Vidirr

/-- str::starts_with on path strings (character-level, as all claim paths
are ASCII). -/
def strPrefixOf (p s : String) : Bool :=
  p.toList.isPrefixOf s.toList

/-- The slice s[n..] of a path string (character-level). -/
def strDrop (s : String) (n : Nat) : String :=
  String.mk (s.toList.drop n)

/-- Finite map from identifiers to path strings, modelling
HashMap<usize, String> as an association list with unique keys. -/
abbrev FMap := List (Nat × String)

/-- HashMap::get. -/
def FMap.lookup : FMap → Nat → Option String
  | [], _ => none
  | kv :: rest, k => if kv.1 = k then some kv.2 else FMap.lookup rest k

/-- HashMap::remove (under the unique-key invariant, removing every binding
of the key is the same as removing the one binding). -/
def FMap.erase (n : Nat) : FMap → FMap
  | [] => []
  | kv :: rest => if kv.1 = n then FMap.erase n rest else kv :: FMap.erase n rest

/-- HashMap::insert: replace the binding of the key if present, else add it. -/
def FMap.insertMap (k : Nat) (v : String) : FMap → FMap
  | [] => [(k, v)]
  | kv :: rest => if kv.1 = k then (k, v) :: rest else kv :: FMap.insertMap k v rest

/-- An in-place rewrite of every value (iter_mut loop over a HashMap). -/
def FMap.mapVal (f : String → String) (m : FMap) : FMap :=
  m.map (fun kv => (kv.1, f kv.2))

/-- A filesystem entry: a regular file with an abstract content tag, or a
directory. -/
inductive Entry where
  | file (content : Nat)
  | dir
deriving DecidableEq

/-- The model filesystem: a finite association list from paths to entries. -/
abbrev FileSys := List (String × Entry)

/-- Lookup of a path in the model filesystem. -/
def FileSys.lookup : FileSys → String → Option Entry
  | [], _ => none
  | pe :: rest, p => if pe.1 = p then some pe.2 else FileSys.lookup rest p

/-- Path::try_exists / Path::exists, modelled as a total existence check. -/
def pexists (fs : FileSys) (p : String) : Bool :=
  (FileSys.lookup fs p).isSome

/-- Path::is_dir. -/
def isDir (fs : FileSys) (p : String) : Bool :=
  match FileSys.lookup fs p with
  | some Entry.dir => true
  | _ => false

/-- Effect of fs::rename on the model filesystem: the entry at the source
path moves to the target path, and every path strictly below a renamed
directory follows it.  In every reachable call the target path is free
(apply_changes displaces any occupant first). -/
def renameFS (src dst : String) (fs : FileSys) : FileSys :=
  fs.map (fun pe =>
    if pe.1 = src then (dst, pe.2)
    else if strPrefixOf (src ++ "/") pe.1 then (dst ++ strDrop pe.1 src.length, pe.2)
    else pe)

/-- Replace or add one filesystem entry. -/
def FileSys.setEntry (p : String) (e : Entry) : FileSys → FileSys
  | [] => [(p, e)]
  | pe :: rest => if pe.1 = p then (p, e) :: rest else pe :: FileSys.setEntry p e rest

/-- Effect of fs::copy on the model filesystem: the content at the source
path is duplicated at the target path, the source is untouched. -/
def copyFS (src dst : String) (fs : FileSys) : FileSys :=
  match FileSys.lookup fs src with
  | some e => FileSys.setEntry dst e fs
  | none => fs

/-- Path::parent on the path strings of this model: none for the empty
path, the longest proper prefix before the final slash otherwise (the empty
string when there is no slash), mirroring Rust for the relative paths the
claims use. -/
def parentPath (p : String) : Option String :=
  if p = "" then none
  else
    match p.toList.reverse.dropWhile (fun c => c != '/') with
    | [] => some ""
    | _ :: rest => some (String.mk rest.reverse)

/-- Fuel-driven core of fs::create_dir_all: create every missing ancestor
directory, parents first.  The fuel p.length + 1 always suffices because a
parent path is strictly shorter. -/
def cdaAux (fs : FileSys) : Nat → String → FileSys
  | 0, _ => fs
  | fuel + 1, p =>
    if p = "" then fs
    else
      let fs1 := match parentPath p with
        | some q => cdaAux fs fuel q
        | none => fs
      if pexists fs1 p then fs1 else (p, Entry.dir) :: fs1

/-- fs::create_dir_all, modelled as always succeeding. -/
def create_dir_all (fs : FileSys) (p : String) : FileSys :=
  cdaAux fs (p.length + 1) p

/-- One line of the user-edited listing parsed back: an identifier and a
(possibly empty) target path (struct ParsedLine in src/editor.rs). -/
structure ParsedLine where
  num : Nat
  filename : String
deriving DecidableEq

/-- Decimal value of a digit run, modelling str::parse::<usize> on a string
of ASCII digits (overflow is not modelled: usize becomes Nat). -/
def digitsToNat (ds : List Char) : Nat :=
  ds.foldl (fun a c => a * 10 + (c.toNat - 48)) 0

/-- parse_line from src/editor.rs: trim leading whitespace; an empty
remainder parses to nothing; no leading digit is a failure; otherwise the
digit run is the identifier and, after consuming at most one single space
separator, the rest of the line verbatim is the target path. -/
def parse_line (input : String) : Except String (Option ParsedLine) :=
  let trimmed := input.toList.dropWhile Char.isWhitespace
  if trimmed.isEmpty then Except.ok none
  else
    let ds := trimmed.takeWhile Char.isDigit
    let rest := trimmed.dropWhile Char.isDigit
    if ds.isEmpty then Except.error "no number found"
    else
      match rest with
      | [] => Except.ok (some ⟨digitsToNat ds, ""⟩)
      | c :: cs =>
        if c = ' ' then Except.ok (some ⟨digitsToNat ds, String.mk cs⟩)
        else Except.ok (some ⟨digitsToNat ds, String.mk (c :: cs)⟩)

/-- Left-justified padding of a rendered identifier to a fixed column width
with spaces, modelling the format specification of write_with_ids. -/
def padNum (w : Nat) (n : Nat) : String :=
  Nat.repr n ++ String.mk (List.replicate (w - (Nat.repr n).length) ' ')

/-- One rendered listing line: the identifier left-justified and padded to
width w, a single separator space, then the path. -/
def renderLine (w : Nat) (id : Nat) (file : String) : String :=
  padNum w id ++ " " ++ file

/-- write_with_ids from src/editor.rs: assign 1-based sequential identifiers
to the sources and render one line per entry, the identifier column padded
to the width of (number of sources + 1); returns the identifier-to-path map
and the rendered lines. -/
def write_with_ids (sources : List String) : FMap × List String :=
  ((sources.enum.map (fun p => (p.1 + 1, p.2))),
   (sources.enum.map (fun p => renderLine (Nat.repr (sources.length + 1)).length (p.1 + 1) p.2)))

/-- The error taxonomy of src/ops.rs (enum OpsError, plus the anyhow string
error for an unknown identifier); an io::Error cause is abstracted to a Nat
tag. -/
inductive OpsError where
  | notFound (p : String)
  | failRename (cause : Nat) (src dst : String)
  | failCopy (cause : Nat) (src dst : String)
  | unknownItem (n : Nat)
deriving DecidableEq

/-- One filesystem call made by apply_changes, recorded in order so that
"performs no filesystem call" claims are statable. -/
inductive FsCall where
  | tryExistsCall (p : String)
  | renameCall (src dst : String)
  | copyCall (src dst : String)
  | parentExistsCall (p : String)
  | createDirCall (p : String)
  | isDirCall (p : String)
deriving DecidableEq

/-- The Operator resolution engine state: the pending map (items) and the
resolved map (dones). -/
structure Operator where
  items : FMap
  dones : FMap
deriving DecidableEq

/-- Operator::new: take the initial items; the resolved map starts empty
(HashMap::with_capacity allocates an empty map). -/
def Operator.new (items : FMap) : Operator :=
  ⟨items, []⟩

/-- The injected Operation capability: failure oracles for the OS-level
rename and copy calls; none means the call succeeds. -/
structure Env where
  renErr : String → String → Option Nat
  cpErr : String → String → Option Nat

/-- The outcome of one apply_changes call: the new Operator state, the new
filesystem, the trace of filesystem calls, and the returned Result
(none models Ok(())). -/
structure ApplyResult where
  op : Operator
  fs : FileSys
  trace : List FsCall
  err : Option OpsError
deriving DecidableEq

/-- The loop of get_unique_tmp_name in src/ops.rs: while the current
candidate exists, push the decimal rendering of the counter onto the
candidate string and increment the counter.  Fuel-driven; returns the
probed names and the final name. -/
def tmpLoop (fs : FileSys) : Nat → String → Nat → List String × String
  | 0, cur, _ => ([cur], cur)
  | fuel + 1, cur, i =>
    if pexists fs cur then
      let r := tmpLoop fs fuel (cur ++ Nat.repr i) (i + 1)
      (cur :: r.1, r.2)
    else ([cur], cur)

/-- get_unique_tmp_name from src/ops.rs: append a tilde, then run the probe
loop.  The fuel fs.length + 1 always suffices (proved below), so the model
matches the Rust loop on every input. -/
def get_unique_tmp_name (fs : FileSys) (name : String) : String :=
  (tmpLoop fs (fs.length + 1) (name ++ "~") 1).2

/-- The existence probes issued by get_unique_tmp_name, in order. -/
def tmpProbes (fs : FileSys) (name : String) : List String :=
  (tmpLoop fs (fs.length + 1) (name ++ "~") 1).1

/-- Operator::update_items: rewrite every pending path equal to src to dst. -/
def update_items (src dst : String) (m : FMap) : FMap :=
  FMap.mapVal (fun name => if name = src then dst else name) m

/-- Operator::update_dir: rewrite every pending path that has src as a
string prefix, replacing that prefix with dst. -/
def update_dir (src dst : String) (m : FMap) : FMap :=
  FMap.mapVal (fun name => if strPrefixOf src name then dst ++ strDrop name src.length else name) m

/-- The tail of apply_changes once the effective source is known to exist
and any occupant of the target has been displaced: ensure the target's
parent directory exists, perform the copy (when the identifier was already
resolved) or rename, cascade a directory rename into the pending paths, and
move the identifier into the resolved map. -/
def applyOp (env : Env) (num : Nat) (new_name src : String) (is_copy : Bool)
    (st : Operator) (fs : FileSys) (tr : List FsCall) : ApplyResult :=
  let step := match parentPath new_name with
    | none => (fs, tr)
    | some par =>
      let tr1 := tr ++ [FsCall.parentExistsCall par]
      if pexists fs par then (fs, tr1)
      else (create_dir_all fs par, tr1 ++ [FsCall.createDirCall par])
  match (if is_copy then env.cpErr src new_name else env.renErr src new_name) with
  | some c =>
    { op := st, fs := step.1,
      trace := step.2 ++ [if is_copy then FsCall.copyCall src new_name else FsCall.renameCall src new_name],
      err := some (if is_copy then OpsError.failCopy c src new_name else OpsError.failRename c src new_name) }
  | none =>
    let fs2 := if is_copy then copyFS src new_name step.1 else renameFS src new_name step.1
    let st1 := if isDir fs2 new_name then { st with items := update_dir src new_name st.items } else st
    { op := { items := FMap.erase num st1.items, dones := FMap.insertMap num new_name st1.dones },
      fs := fs2,
      trace := step.2 ++ [if is_copy then FsCall.copyCall src new_name else FsCall.renameCall src new_name,
                          FsCall.isDirCall new_name],
      err := none }

/-- The move/copy part of apply_changes: check that the effective source
exists (evicting the pending entry and failing with NotFound otherwise),
displace an existing occupant of the target to a fresh temporary name and
redirect the pending entries that pointed at the target, then hand over to
applyOp. -/
def applyMove (env : Env) (num : Nat) (new_name src : String) (is_copy : Bool)
    (st : Operator) (fs : FileSys) : ApplyResult :=
  if pexists fs src = false then
    { op := { st with items := FMap.erase num st.items }, fs := fs,
      trace := [FsCall.tryExistsCall src], err := some (OpsError.notFound src) }
  else
    let tr := [FsCall.tryExistsCall src, FsCall.tryExistsCall new_name]
    if pexists fs new_name then
      let tmp := get_unique_tmp_name fs new_name
      let tr1 := tr ++ (tmpProbes fs new_name).map FsCall.tryExistsCall
      match env.renErr new_name tmp with
      | some c =>
        { op := st, fs := fs, trace := tr1 ++ [FsCall.renameCall new_name tmp],
          err := some (OpsError.failRename c new_name tmp) }
      | none =>
        applyOp env num new_name src is_copy
          { st with items := update_items new_name tmp st.items }
          (renameFS new_name tmp fs)
          (tr1 ++ [FsCall.renameCall new_name tmp])
    else
      applyOp env num new_name src is_copy st fs tr

/-- Operator::apply_changes from src/ops.rs, one parsed edit at a time: an
identifier known in neither map is an error; a not-yet-resolved identifier
whose target equals its pending path is confirmed without filesystem
action; an empty target is silently skipped; otherwise the source is the
resolved path (copy) or the pending path (rename) and the move runs. -/
def apply_changes (env : Env) (st : Operator) (fs : FileSys) (pl : ParsedLine) : ApplyResult :=
  match FMap.lookup st.dones pl.num, FMap.lookup st.items pl.num with
  | none, none =>
    { op := st, fs := fs, trace := [], err := some (OpsError.unknownItem pl.num) }
  | done, item =>
    if done.isSome || item != some pl.filename then
      if pl.filename = "" then { op := st, fs := fs, trace := [], err := none }
      else
        applyMove env pl.num pl.filename
          (match done with
           | some d => d
           | none => item.getD "")
          done.isSome st fs
    else
      { op := { items := FMap.erase pl.num st.items, dones := FMap.insertMap pl.num pl.filename st.dones },
        fs := fs, trace := [], err := none }

/-- Outcome type for the Temp-Name Generator when the existence check is
itself fallible: either a name, or a process abort -- the Rust function
returns a plain String and calls .unwrap() on try_exists, so an erroring
check can only surface as a panic. -/
inductive TmpOutcome where
  | ok (name : String)
  | panicked (cause : Nat)
deriving DecidableEq

/-- The get_unique_tmp_name loop over a fallible existence check: an Err
from the check hits .unwrap() and aborts (TmpOutcome.panicked). -/
def get_unique_tmp_nameChecked (check : String → Except Nat Bool) : Nat → String → Nat → TmpOutcome
  | 0, cur, _ => TmpOutcome.ok cur
  | fuel + 1, cur, i =>
    match check cur with
    | Except.error e => TmpOutcome.panicked e
    | Except.ok true => get_unique_tmp_nameChecked check fuel (cur ++ Nat.repr i) (i + 1)
    | Except.ok false => TmpOutcome.ok cur

/-! ### Basic lemmas about the finite maps -/

theorem FMap.lookup_erase_self (n : Nat) (m : FMap) : FMap.lookup (FMap.erase n m) n = none := by
  induction m with
  | nil => rfl
  | cons kv rest ih =>
    by_cases h : kv.1 = n
    · simp [FMap.erase, h, ih]
    · simp [FMap.erase, FMap.lookup, h, ih]

theorem FMap.lookup_erase_ne (n k : Nat) (m : FMap) (h : k ≠ n) :
    FMap.lookup (FMap.erase n m) k = FMap.lookup m k := by
  induction m with
  | nil => rfl
  | cons kv rest ih =>
    by_cases h1 : kv.1 = n
    · simp [FMap.erase, FMap.lookup, h1, Ne.symm h, ih]
    · by_cases h2 : kv.1 = k
      · simp [FMap.erase, FMap.lookup, h1, h2, h]
      · simp [FMap.erase, FMap.lookup, h1, h2, ih]

theorem FMap.lookup_insertMap_self (k : Nat) (v : String) (m : FMap) :
    FMap.lookup (FMap.insertMap k v m) k = some v := by
  induction m with
  | nil => simp [FMap.insertMap, FMap.lookup]
  | cons kv rest ih =>
    by_cases h : kv.1 = k
    · simp [FMap.insertMap, FMap.lookup, h]
    · simp [FMap.insertMap, FMap.lookup, h, ih]

theorem FMap.lookup_insertMap_ne (k k1 : Nat) (v : String) (m : FMap) (h : k1 ≠ k) :
    FMap.lookup (FMap.insertMap k v m) k1 = FMap.lookup m k1 := by
  induction m with
  | nil => simp [FMap.insertMap, FMap.lookup, Ne.symm h]
  | cons kv rest ih =>
    by_cases h1 : kv.1 = k
    · simp [FMap.insertMap, FMap.lookup, h1, Ne.symm h]
    · by_cases h2 : kv.1 = k1
      · simp [FMap.insertMap, FMap.lookup, h1, h2, h]
      · simp [FMap.insertMap, FMap.lookup, h1, h2, ih]

theorem FMap.lookup_mapVal (f : String → String) (m : FMap) (k : Nat) :
    FMap.lookup (FMap.mapVal f m) k = (FMap.lookup m k).map f := by
  induction m with
  | nil => rfl
  | cons kv rest ih =>
    by_cases h : kv.1 = k
    · simp [FMap.mapVal, FMap.lookup, h]
    · simpa [FMap.mapVal, FMap.lookup, h] using ih

theorem FMap.mapVal_id (m : FMap) : FMap.mapVal (fun v => v) m = m := by
  simp [FMap.mapVal]

theorem FMap.mapVal_mapVal (f g : String → String) (m : FMap) :
    FMap.mapVal f (FMap.mapVal g m) = FMap.mapVal (fun v => f (g v)) m := by
  simp [FMap.mapVal]

/-! ### Concrete instantiations used by the claims -/

/-- An operation capability whose rename and copy calls always succeed. -/
def env0 : Env := ⟨fun _ _ => none, fun _ _ => none⟩

/-- Nine identical one-character source paths: the smallest shape of input
on which the listing round trip breaks (padding width becomes 2). -/
def nineSources : List String := ["f", "f", "f", "f", "f", "f", "f", "f", "f"]

/-- Claim C1 (code bug): with nine sources the Numberer pads each one-digit
identifier to width two and left-justifies it, so the rendered first line is
"1  f" (two spaces); parse_line consumes exactly one separator space and
returns filename " f", which differs from the original path "f" recorded in
the identifier map.  The round trip of an unmodified listing therefore does
not reproduce the identifier-to-path mapping. -/
theorem write_parse_roundtrip_fails_at_nine :
    (write_with_ids nineSources).2.head? = some "1  f" ∧
    parse_line "1  f" = Except.ok (some ⟨1, " f"⟩) ∧
    FMap.lookup (write_with_ids nineSources).1 1 = some "f" ∧
    (" f" : String) ≠ "f" := by
  refine ⟨by decide, by rfl, by decide, by decide⟩

/-- Claim C2: the two-party swap.  With pending entries 1 ↦ "a" and 2 ↦ "b",
both paths existing, applying the edit (1, "b") renames the occupant "b" to
the fresh sibling "b~", redirects pending entry 2 to "b~", renames "a" to
"b", and records 1 ↦ "b" as resolved; afterwards "a" is gone, "b" holds the
former content of "a", and "b~" holds the former content of "b". -/
theorem swap_scenario :
    apply_changes env0 ⟨[(1, "a"), (2, "b")], []⟩ [("a", Entry.file 10), ("b", Entry.file 20)] ⟨1, "b"⟩ =
      { op := { items := [(2, "b~")], dones := [(1, "b")] },
        fs := [("b", Entry.file 10), ("b~", Entry.file 20)],
        trace := [FsCall.tryExistsCall "a", FsCall.tryExistsCall "b", FsCall.tryExistsCall "b~",
                  FsCall.renameCall "b" "b~", FsCall.parentExistsCall "", FsCall.createDirCall "",
                  FsCall.renameCall "a" "b", FsCall.isDirCall "b"],
        err := none } ∧
    FileSys.lookup (apply_changes env0 ⟨[(1, "a"), (2, "b")], []⟩
        [("a", Entry.file 10), ("b", Entry.file 20)] ⟨1, "b"⟩).fs "a" = none ∧
    FileSys.lookup (apply_changes env0 ⟨[(1, "a"), (2, "b")], []⟩
        [("a", Entry.file 10), ("b", Entry.file 20)] ⟨1, "b"⟩).fs "b" = some (Entry.file 10) ∧
    FileSys.lookup (apply_changes env0 ⟨[(1, "a"), (2, "b")], []⟩
        [("a", Entry.file 10), ("b", Entry.file 20)] ⟨1, "b"⟩).fs "b~" = some (Entry.file 20) := by
  refine ⟨by decide, by decide, by decide, by decide⟩

/-- Claim C3, counterexample: pending {1 ↦ "d", 2 ↦ "e"} where "d" is a
directory and "e" an existing file; applying (1, "e") makes the target "e" a
directory after the move, yet the pending path "e" of entry 2 — which does
not have the source "d" as a string prefix — is not left unchanged: the
displacement step rewrote it to "e~".  The claim's universal "every
pending-set path that does not have the source as a string prefix is left
unchanged" is therefore false as stated. -/
theorem dir_cascade_displacement_cex :
    isDir (apply_changes env0 ⟨[(1, "d"), (2, "e")], []⟩
        [("d", Entry.dir), ("e", Entry.file 0)] ⟨1, "e"⟩).fs "e" = true ∧
    (apply_changes env0 ⟨[(1, "d"), (2, "e")], []⟩
        [("d", Entry.dir), ("e", Entry.file 0)] ⟨1, "e"⟩).err = none ∧
    strPrefixOf "d" "e" = false ∧
    FMap.lookup (apply_changes env0 ⟨[(1, "d"), (2, "e")], []⟩
        [("d", Entry.dir), ("e", Entry.file 0)] ⟨1, "e"⟩).op.items 2 = some "e~" ∧
    ("e~" : String) ≠ "e" := by
  refine ⟨by decide, by decide, by decide, by decide, by decide⟩

/-- Claim C7, counterexample: an identifier that is pending with the empty
string as its pending path.  The edit (1, "") has an empty target, and the
identifier is known, yet apply does not leave the maps unchanged: the edit
falls into the confirmed-no-op branch (target equals pending path), so the
identifier moves from the pending map to the resolved map. -/
theorem empty_target_cex :
    (apply_changes env0 ⟨[(1, "")], []⟩ [] ⟨1, ""⟩).err = none ∧
    (apply_changes env0 ⟨[(1, "")], []⟩ [] ⟨1, ""⟩).trace = [] ∧
    (apply_changes env0 ⟨[(1, "")], []⟩ [] ⟨1, ""⟩).op.items = [] ∧
    (apply_changes env0 ⟨[(1, "")], []⟩ [] ⟨1, ""⟩).op.dones = [(1, "")] ∧
    FMap.lookup ([(1, "")] : FMap) 1 = some "" ∧
    ([] : FMap) ≠ [(1, "")] := by
  refine ⟨by decide, by decide, by decide, by decide, by decide, by decide⟩

/-- Claim C8, counterexample: with "a~" and "a~1" existing, the generator's
third proposal for input "a" is "a~12" — each counter value is pushed onto
the accumulated candidate string — not the "a~2" the claim's sequence
(name~1, then name~2, then name~3) prescribes, even though "a~2" is unused
and would have been returned under the claimed behaviour. -/
theorem tmp_name_sequence_cex :
    get_unique_tmp_name [("a~", Entry.file 0), ("a~1", Entry.file 1)] "a" = "a~12" ∧
    tmpProbes [("a~", Entry.file 0), ("a~1", Entry.file 1)] "a" = ["a~", "a~1", "a~12"] ∧
    pexists [("a~", Entry.file 0), ("a~1", Entry.file 1)] "a~2" = false ∧
    ("a~12" : String) ≠ "a~2" := by
  refine ⟨by decide, by decide, by decide, by decide⟩

/-- Claim C9, counterexample: when the very first existence check errors
(cause 7), the generator's loop hits .unwrap() and the process aborts — the
outcome is a panic, not a failure value returned to the caller (the Rust
function returns a plain String and has no failure channel). -/
theorem tmp_check_error_cex :
    get_unique_tmp_nameChecked (fun _ => Except.error 7) 3 ("a" ++ "~") 1 = TmpOutcome.panicked 7 := by
  decide

/-- Claim C6: for every pending, not-yet-resolved identifier n whose edit
target equals its current pending path exactly, apply performs no
filesystem call (empty trace), removes n from the pending map, and records
n mapped to that same path in the resolved map; the call succeeds and the
filesystem is untouched. -/
theorem confirm_noop (env : Env) (st : Operator) (fs : FileSys) (n : Nat) (p : String)
    (hd : FMap.lookup st.dones n = none) (hi : FMap.lookup st.items n = some p) :
    apply_changes env st fs ⟨n, p⟩ =
      { op := { items := FMap.erase n st.items, dones := FMap.insertMap n p st.dones },
        fs := fs, trace := [], err := none } := by
  simp [apply_changes, hd, hi]

/-- Witness for confirm_noop at a concrete state. -/
theorem confirm_noop_witness :
    apply_changes env0 ⟨[(1, "a")], []⟩ [] ⟨1, "a"⟩ =
      { op := { items := FMap.erase 1 [(1, "a")], dones := FMap.insertMap 1 "a" [] },
        fs := [], trace := [], err := none } :=
  confirm_noop env0 ⟨[(1, "a")], []⟩ [] 1 "a" (by decide) (by decide)

/-- Claim C5: for a not-yet-resolved identifier n with pending path p, an
edit whose non-empty target t differs from p, when p does not exist on the
filesystem, fails with the source-not-found error naming p, evicts n from
the pending map, leaves the resolved map and the filesystem unchanged, and
performs no rename or copy (the only filesystem call is the existence
probe of p). -/
theorem src_missing (env : Env) (st : Operator) (fs : FileSys) (n : Nat) (t p : String)
    (hd : FMap.lookup st.dones n = none) (hi : FMap.lookup st.items n = some p)
    (ht : t ≠ "") (htp : t ≠ p) (hex : pexists fs p = false) :
    apply_changes env st fs ⟨n, t⟩ =
      { op := { items := FMap.erase n st.items, dones := st.dones },
        fs := fs, trace := [FsCall.tryExistsCall p], err := some (OpsError.notFound p) } := by
  simp [apply_changes, hd, hi, Ne.symm htp, ht, applyMove, hex]

/-- Witness for src_missing at the state of test_apply_changes_src_not_exists. -/
theorem src_missing_witness :
    apply_changes env0 ⟨[(1, "file_1")], []⟩ [] ⟨1, "file_one"⟩ =
      { op := { items := FMap.erase 1 [(1, "file_1")], dones := [] },
        fs := [], trace := [FsCall.tryExistsCall "file_1"],
        err := some (OpsError.notFound "file_1") } :=
  src_missing env0 ⟨[(1, "file_1")], []⟩ [] 1 "file_one" "file_1"
    (by decide) (by decide) (by decide) (by decide) (by decide)

/-- Claim C7 as amended: an edit with an empty target path is a no-op —
success, no filesystem call, pending and resolved maps unchanged — whenever
the identifier is resolved, or is pending with a non-empty pending path.
(The exception forced by the counterexample empty_target_cex: an identifier
pending with the empty string as its path instead moves to the resolved
map, through the confirmed-no-op branch.) -/
theorem empty_target_skip (env : Env) (st : Operator) (fs : FileSys) (n : Nat)
    (h : (∃ d, FMap.lookup st.dones n = some d) ∨
         (∃ p, FMap.lookup st.items n = some p ∧ p ≠ "")) :
    apply_changes env st fs ⟨n, ""⟩ = { op := st, fs := fs, trace := [], err := none } := by
  rcases h with ⟨d, hd⟩ | ⟨p, hp, hne⟩
  · cases hi : FMap.lookup st.items n <;> simp [apply_changes, hd, hi]
  · cases hd : FMap.lookup st.dones n with
    | none => simp [apply_changes, hd, hp, hne]
    | some d => simp [apply_changes, hd, hp]

/-- Witness for empty_target_skip at the state of
test_apply_changes_empty_filename. -/
theorem empty_target_skip_witness :
    apply_changes env0 ⟨[(1, "file_1")], []⟩ [] ⟨1, ""⟩ =
      { op := ⟨[(1, "file_1")], []⟩, fs := [], trace := [], err := none } :=
  empty_target_skip env0 ⟨[(1, "file_1")], []⟩ [] 1
    (Or.inr ⟨"file_1", by decide, by decide⟩)

/-- The effective source path selected by apply_changes for a known
identifier: the resolved path when the identifier was already resolved
(copy intent), the pending path otherwise. -/
def srcOf (st : Operator) (n : Nat) : Option String :=
  match FMap.lookup st.dones n with
  | some d => some d
  | none => FMap.lookup st.items n

theorem applyOp_err_some (env : Env) (num : Nat) (nn src : String) (ic : Bool)
    (st : Operator) (fs : FileSys) (tr : List FsCall) (c : Nat)
    (h : (if ic then env.cpErr src nn else env.renErr src nn) = some c) :
    (applyOp env num nn src ic st fs tr).err =
      some (if ic then OpsError.failCopy c src nn else OpsError.failRename c src nn) ∧
    (applyOp env num nn src ic st fs tr).op = st := by
  simp [applyOp, h]

theorem applyOp_err_none (env : Env) (num : Nat) (nn src : String) (ic : Bool)
    (st : Operator) (fs : FileSys) (tr : List FsCall)
    (h : (if ic then env.cpErr src nn else env.renErr src nn) = none) :
    (applyOp env num nn src ic st fs tr).err = none := by
  simp [applyOp, h]

theorem applyOp_op_none (env : Env) (num : Nat) (nn src : String) (ic : Bool)
    (st : Operator) (fs : FileSys) (tr : List FsCall)
    (h : (if ic then env.cpErr src nn else env.renErr src nn) = none) :
    (applyOp env num nn src ic st fs tr).op =
      { items := FMap.erase num
          (if isDir (applyOp env num nn src ic st fs tr).fs nn
           then update_dir src nn st.items else st.items),
        dones := FMap.insertMap num nn st.dones } := by
  simp [applyOp, h, apply_ite]

/-- Claim C4: when the underlying rename or copy for an edit fails, apply
returns an error carrying the failing call's two paths together with the
underlying cause, the resolved map is unchanged (in particular the edit's
identifier is not added to it), and the pending map is exactly as it was
before the failing step.  First conjunct: the main rename/copy fails (the
pending map then still carries any displacement rewrite, which happened
before the failing step); second conjunct: the displacement rename itself
fails (the pending map is then fully untouched). -/
theorem op_failure (env : Env) (st : Operator) (fs : FileSys) (n : Nat) (t s : String) (c : Nat)
    (hs : srcOf st n = some s)
    (hbr : (FMap.lookup st.dones n).isSome = true ∨ FMap.lookup st.items n ≠ some t)
    (ht : t ≠ "")
    (hsrc : pexists fs s = true) :
    (((pexists fs t = true → env.renErr t (get_unique_tmp_name fs t) = none) →
      (if (FMap.lookup st.dones n).isSome then env.cpErr s t else env.renErr s t) = some c →
      (apply_changes env st fs ⟨n, t⟩).err =
          some (if (FMap.lookup st.dones n).isSome then OpsError.failCopy c s t
                else OpsError.failRename c s t) ∧
      (apply_changes env st fs ⟨n, t⟩).op.dones = st.dones ∧
      (apply_changes env st fs ⟨n, t⟩).op.items =
          (if pexists fs t then update_items t (get_unique_tmp_name fs t) st.items
           else st.items)) ∧
     (pexists fs t = true →
      env.renErr t (get_unique_tmp_name fs t) = some c →
      (apply_changes env st fs ⟨n, t⟩).err =
          some (OpsError.failRename c t (get_unique_tmp_name fs t)) ∧
      (apply_changes env st fs ⟨n, t⟩).op = st)) := by
  cases hd : FMap.lookup st.dones n with
  | some d =>
    simp [srcOf, hd] at hs
    have hsd := hs.symm
    subst hsd
    cases hi : FMap.lookup st.items n with
    | none =>
      constructor
      · intro hdisp hop
        simp [hd] at hop
        by_cases hex : pexists fs t
        · have htmp := hdisp hex
          simp [apply_changes, hd, hi, ht, applyMove, hsrc, hex, htmp]
          have := applyOp_err_some env n t s true
            { st with items := update_items t (get_unique_tmp_name fs t) st.items }
            (renameFS t (get_unique_tmp_name fs t) fs)
            (FsCall.tryExistsCall s :: FsCall.tryExistsCall t ::
              ((tmpProbes fs t).map FsCall.tryExistsCall ++
               [FsCall.renameCall t (get_unique_tmp_name fs t)])) c (by simpa using hop)
          exact ⟨this.1, by rw [this.2], by rw [this.2]⟩
        · simp [apply_changes, hd, hi, ht, applyMove, hsrc, hex]
          have := applyOp_err_some env n t s true st fs
            [FsCall.tryExistsCall s, FsCall.tryExistsCall t] c (by simpa using hop)
          exact ⟨this.1, by rw [this.2], by rw [this.2]⟩
      · intro hex hfail
        simp [apply_changes, hd, hi, ht, applyMove, hsrc, hex, hfail]
    | some p =>
      constructor
      · intro hdisp hop
        simp [hd] at hop
        by_cases hex : pexists fs t
        · have htmp := hdisp hex
          simp [apply_changes, hd, hi, ht, applyMove, hsrc, hex, htmp]
          have := applyOp_err_some env n t s true
            { st with items := update_items t (get_unique_tmp_name fs t) st.items }
            (renameFS t (get_unique_tmp_name fs t) fs)
            (FsCall.tryExistsCall s :: FsCall.tryExistsCall t ::
              ((tmpProbes fs t).map FsCall.tryExistsCall ++
               [FsCall.renameCall t (get_unique_tmp_name fs t)])) c (by simpa using hop)
          exact ⟨this.1, by rw [this.2], by rw [this.2]⟩
        · simp [apply_changes, hd, hi, ht, applyMove, hsrc, hex]
          have := applyOp_err_some env n t s true st fs
            [FsCall.tryExistsCall s, FsCall.tryExistsCall t] c (by simpa using hop)
          exact ⟨this.1, by rw [this.2], by rw [this.2]⟩
      · intro hex hfail
        simp [apply_changes, hd, hi, ht, applyMove, hsrc, hex, hfail]
  | none =>
    simp [srcOf, hd] at hs
    have hne : FMap.lookup st.items n ≠ some t := by
      rcases hbr with hbr | hbr
      · simp [hd] at hbr
      · exact hbr
    have hst : s ≠ t := by
      intro hh
      exact hne (by rw [hs, hh])
    constructor
    · intro hdisp hop
      simp [hd] at hop
      by_cases hex : pexists fs t
      · have htmp := hdisp hex
        simp [apply_changes, hd, hs, ht, hst, Ne.symm hst, applyMove, hsrc, hex, htmp]
        have := applyOp_err_some env n t s false
          { st with items := update_items t (get_unique_tmp_name fs t) st.items }
          (renameFS t (get_unique_tmp_name fs t) fs)
          (FsCall.tryExistsCall s :: FsCall.tryExistsCall t ::
            ((tmpProbes fs t).map FsCall.tryExistsCall ++
             [FsCall.renameCall t (get_unique_tmp_name fs t)])) c (by simpa using hop)
        exact ⟨this.1, by rw [this.2], by rw [this.2]⟩
      · simp [apply_changes, hd, hs, ht, hst, Ne.symm hst, applyMove, hsrc, hex]
        have := applyOp_err_some env n t s false st fs
          [FsCall.tryExistsCall s, FsCall.tryExistsCall t] c (by simpa using hop)
        exact ⟨this.1, by rw [this.2], by rw [this.2]⟩
    · intro hex hfail
      simp [apply_changes, hd, hs, ht, hst, Ne.symm hst, applyMove, hsrc, hex, hfail]

/-- An operation capability whose rename of "a" to "x" fails with cause 5
and every other call succeeds. -/
def envFail : Env :=
  ⟨fun s d => if s == "a" && d == "x" then some 5 else none, fun _ _ => none⟩

/-- Witness for op_failure: renaming pending item 1 from "a" to "x" under
envFail fails with the error carrying both paths and cause 5, leaving both
maps as they were. -/
theorem op_failure_witness :
    (apply_changes envFail ⟨[(1, "a")], []⟩ [("a", Entry.file 0)] ⟨1, "x"⟩).err =
        some (OpsError.failRename 5 "a" "x") ∧
    (apply_changes envFail ⟨[(1, "a")], []⟩ [("a", Entry.file 0)] ⟨1, "x"⟩).op.dones = [] ∧
    (apply_changes envFail ⟨[(1, "a")], []⟩ [("a", Entry.file 0)] ⟨1, "x"⟩).op.items = [(1, "a")] := by
  have h := (op_failure envFail ⟨[(1, "a")], []⟩ [("a", Entry.file 0)] 1 "x" "a" 5
      (by decide) (Or.inr (by decide)) (by decide) (by decide)).1 (by decide) (by decide)
  simpa using h

theorem applyMove_disp (env : Env) (num : Nat) (nn src : String) (ic : Bool)
    (st : Operator) (fs : FileSys)
    (hsrcx : pexists fs src = true) (hex : pexists fs nn = true)
    (htmp : env.renErr nn (get_unique_tmp_name fs nn) = none) :
    applyMove env num nn src ic st fs =
      applyOp env num nn src ic
        { st with items := update_items nn (get_unique_tmp_name fs nn) st.items }
        (renameFS nn (get_unique_tmp_name fs nn) fs)
        (FsCall.tryExistsCall src :: FsCall.tryExistsCall nn ::
          ((tmpProbes fs nn).map FsCall.tryExistsCall ++
           [FsCall.renameCall nn (get_unique_tmp_name fs nn)])) := by
  simp [applyMove, hsrcx, hex, htmp]

theorem applyMove_nodisp (env : Env) (num : Nat) (nn src : String) (ic : Bool)
    (st : Operator) (fs : FileSys)
    (hsrcx : pexists fs src = true) (hex : pexists fs nn = false) :
    applyMove env num nn src ic st fs =
      applyOp env num nn src ic st fs [FsCall.tryExistsCall src, FsCall.tryExistsCall nn] := by
  simp [applyMove, hsrcx, hex]

theorem applyMove_cascade (env : Env) (st : Operator) (fs : FileSys) (n : Nat) (t s : String)
    (ic : Bool)
    (herr : (applyMove env n t s ic st fs).err = none)
    (hdir : isDir (applyMove env n t s ic st fs).fs t = true) :
    (∀ k, k ≠ n →
       FMap.lookup (applyMove env n t s ic st fs).op.items k =
         (FMap.lookup (if pexists fs t then update_items t (get_unique_tmp_name fs t) st.items
                       else st.items) k).map
           (fun q => if strPrefixOf s q then t ++ strDrop q s.length else q)) ∧
    FMap.lookup (applyMove env n t s ic st fs).op.items n = none := by
  cases hsrcx : pexists fs s with
  | false => simp [applyMove, hsrcx] at herr
  | true =>
    cases hex : pexists fs t with
    | true =>
      cases htmp : env.renErr t (get_unique_tmp_name fs t) with
      | some c => simp [applyMove, hsrcx, hex, htmp] at herr
      | none =>
        rw [applyMove_disp env n t s ic st fs hsrcx hex htmp] at herr hdir ⊢
        cases hop : (if ic = true then env.cpErr s t else env.renErr s t) with
        | some c =>
          rw [(applyOp_err_some _ _ _ _ _ _ _ _ _ hop).1] at herr
          simp at herr
        | none =>
          rw [applyOp_op_none _ _ _ _ _ _ _ _ hop, hdir]
          constructor
          · intro k hk
            simp [FMap.lookup_erase_ne _ _ _ hk, update_dir, update_items,
              FMap.lookup_mapVal, hex]
          · simp [FMap.lookup_erase_self]
    | false =>
      rw [applyMove_nodisp env n t s ic st fs hsrcx hex] at herr hdir ⊢
      cases hop : (if ic = true then env.cpErr s t else env.renErr s t) with
      | some c =>
        rw [(applyOp_err_some _ _ _ _ _ _ _ _ _ hop).1] at herr
        simp at herr
      | none =>
        rw [applyOp_op_none _ _ _ _ _ _ _ _ hop, hdir]
        constructor
        · intro k hk
          simp [FMap.lookup_erase_ne _ _ _ hk, update_dir, FMap.lookup_mapVal, hex]
        · simp [FMap.lookup_erase_self]

/-- Claim C3 as amended: whenever an applied edit with identifier n and
non-empty target t succeeds and t is a directory after the move, every
remaining pending path that has the effective source s as a string prefix
has exactly that prefix replaced by t, and every remaining pending path
without that prefix is left unchanged — relative to the pending map as the
cascade sees it, that is, after the collision-displacement step, which (as
the counterexample dir_cascade_displacement_cex forces) may already have
redirected pending entries whose path equalled t to the temporary name. -/
theorem dir_cascade (env : Env) (st : Operator) (fs : FileSys) (n : Nat) (t s : String)
    (hs : srcOf st n = some s)
    (hbr : (FMap.lookup st.dones n).isSome = true ∨ FMap.lookup st.items n ≠ some t)
    (ht : t ≠ "")
    (herr : (apply_changes env st fs ⟨n, t⟩).err = none)
    (hdir : isDir (apply_changes env st fs ⟨n, t⟩).fs t = true) :
    (∀ k, k ≠ n →
       FMap.lookup (apply_changes env st fs ⟨n, t⟩).op.items k =
         (FMap.lookup (if pexists fs t then update_items t (get_unique_tmp_name fs t) st.items
                       else st.items) k).map
           (fun q => if strPrefixOf s q then t ++ strDrop q s.length else q)) ∧
    FMap.lookup (apply_changes env st fs ⟨n, t⟩).op.items n = none := by
  cases hd : FMap.lookup st.dones n with
  | some d =>
    simp [srcOf, hd] at hs
    have hsd := hs.symm
    subst hsd
    have hred : apply_changes env st fs ⟨n, t⟩ = applyMove env n t s true st fs := by
      cases hi : FMap.lookup st.items n <;> simp [apply_changes, hd, hi, ht]
    rw [hred] at herr hdir ⊢
    exact applyMove_cascade env st fs n t s true herr hdir
  | none =>
    simp [srcOf, hd] at hs
    have hne : FMap.lookup st.items n ≠ some t := by
      rcases hbr with hbr | hbr
      · simp [hd] at hbr
      · exact hbr
    have hst : s ≠ t := by
      intro hh
      exact hne (by rw [hs, hh])
    have hred : apply_changes env st fs ⟨n, t⟩ = applyMove env n t s false st fs := by
      simp [apply_changes, hd, hs, ht, hst, Ne.symm hst]
    rw [hred] at herr hdir ⊢
    exact applyMove_cascade env st fs n t s false herr hdir

/-- The pending map of the directory-cascade scenario in the ops.rs tests. -/
def cascadeItems : FMap := [(1, "dir1"), (2, "dir1/file_1")]

/-- The filesystem of the directory-cascade scenario. -/
def cascadeFS : FileSys := [("dir1", Entry.dir), ("dir1/file_1", Entry.file 0)]

/-- Witness for dir_cascade: renaming the directory "dir1" to "dir2"
cascades the pending child path "dir1/file_1" to "dir2/file_1". -/
theorem dir_cascade_witness :
    FMap.lookup (apply_changes env0 ⟨cascadeItems, []⟩ cascadeFS ⟨1, "dir2"⟩).op.items 2 =
      (FMap.lookup (if pexists cascadeFS "dir2"
                    then update_items "dir2" (get_unique_tmp_name cascadeFS "dir2") cascadeItems
                    else cascadeItems) 2).map
        (fun q => if strPrefixOf "dir1" q then "dir2" ++ strDrop q "dir1".length else q) ∧
    FMap.lookup (apply_changes env0 ⟨cascadeItems, []⟩ cascadeFS ⟨1, "dir2"⟩).op.items 1 = none := by
  have h := dir_cascade env0 ⟨cascadeItems, []⟩ cascadeFS 1 "dir2" "dir1"
    (by decide) (Or.inr (by decide)) (by decide) (by decide) (by decide)
  exact ⟨h.1 2 (by decide), h.2⟩

theorem applyOp_op_cases (env : Env) (num : Nat) (nn src : String) (ic : Bool)
    (st : Operator) (fs : FileSys) (tr : List FsCall) :
    (applyOp env num nn src ic st fs tr).op = st ∨
    ∃ f, (applyOp env num nn src ic st fs tr).op =
      { items := FMap.erase num (FMap.mapVal f st.items),
        dones := FMap.insertMap num nn st.dones } := by
  cases hop : (if ic = true then env.cpErr src nn else env.renErr src nn) with
  | some c => exact Or.inl (applyOp_err_some _ _ _ _ _ _ _ _ _ hop).2
  | none =>
    right
    cases hdd : isDir (applyOp env num nn src ic st fs tr).fs nn with
    | true =>
      exact ⟨fun v => if strPrefixOf src v then nn ++ strDrop v src.length else v, by
        rw [applyOp_op_none _ _ _ _ _ _ _ _ hop, hdd]
        simp [update_dir, FMap.mapVal]⟩
    | false =>
      exact ⟨fun v => v, by
        rw [applyOp_op_none _ _ _ _ _ _ _ _ hop, hdd]
        simp [FMap.mapVal_id]⟩

theorem applyMove_op_cases (env : Env) (num : Nat) (nn src : String) (ic : Bool)
    (st : Operator) (fs : FileSys) :
    (applyMove env num nn src ic st fs).op = st ∨
    (applyMove env num nn src ic st fs).op = { st with items := FMap.erase num st.items } ∨
    (∃ g, (applyMove env num nn src ic st fs).op = { st with items := FMap.mapVal g st.items }) ∨
    ∃ f, (applyMove env num nn src ic st fs).op =
      { items := FMap.erase num (FMap.mapVal f st.items),
        dones := FMap.insertMap num nn st.dones } := by
  cases hsrcx : pexists fs src with
  | false =>
    right; left
    simp [applyMove, hsrcx]
  | true =>
    cases hex : pexists fs nn with
    | false =>
      rw [applyMove_nodisp env num nn src ic st fs hsrcx hex]
      rcases applyOp_op_cases env num nn src ic st fs _ with h | ⟨f, h⟩
      · exact Or.inl h
      · exact Or.inr (Or.inr (Or.inr ⟨f, h⟩))
    | true =>
      cases htmp : env.renErr nn (get_unique_tmp_name fs nn) with
      | some c =>
        left
        simp [applyMove, hsrcx, hex, htmp]
      | none =>
        rw [applyMove_disp env num nn src ic st fs hsrcx hex htmp]
        rcases applyOp_op_cases env num nn src ic
            { st with items := update_items nn (get_unique_tmp_name fs nn) st.items }
            (renameFS nn (get_unique_tmp_name fs nn) fs)
            (FsCall.tryExistsCall src :: FsCall.tryExistsCall nn ::
              ((tmpProbes fs nn).map FsCall.tryExistsCall ++
               [FsCall.renameCall nn (get_unique_tmp_name fs nn)])) with h | ⟨f, h⟩
        · right; right; left
          exact ⟨fun v => if v = nn then get_unique_tmp_name fs nn else v, h⟩
        · right; right; right
          refine ⟨fun v => f (if v = nn then get_unique_tmp_name fs nn else v), ?_⟩
          rw [h]
          rw [show ({ st with items := update_items nn (get_unique_tmp_name fs nn) st.items } : Operator).items
              = FMap.mapVal (fun v => if v = nn then get_unique_tmp_name fs nn else v) st.items from rfl,
            FMap.mapVal_mapVal]

theorem apply_changes_op_cases (env : Env) (st : Operator) (fs : FileSys) (pl : ParsedLine) :
    (apply_changes env st fs pl).op = st ∨
    (apply_changes env st fs pl).op = { st with items := FMap.erase pl.num st.items } ∨
    (∃ g, (apply_changes env st fs pl).op = { st with items := FMap.mapVal g st.items }) ∨
    ∃ f, (apply_changes env st fs pl).op =
      { items := FMap.erase pl.num (FMap.mapVal f st.items),
        dones := FMap.insertMap pl.num pl.filename st.dones } := by
  cases hd : FMap.lookup st.dones pl.num with
  | some d =>
    by_cases hemp : pl.filename = ""
    · left
      cases hi : FMap.lookup st.items pl.num <;> simp [apply_changes, hd, hi, hemp]
    · have hred : apply_changes env st fs pl = applyMove env pl.num pl.filename d true st fs := by
        cases hi : FMap.lookup st.items pl.num <;> simp [apply_changes, hd, hi, hemp]
      rw [hred]
      exact applyMove_op_cases env pl.num pl.filename d true st fs
  | none =>
    cases hi : FMap.lookup st.items pl.num with
    | none =>
      left
      simp [apply_changes, hd, hi]
    | some p =>
      by_cases hpt : p = pl.filename
      · right; right; right
        refine ⟨fun v => v, ?_⟩
        simp [apply_changes, hd, hi, hpt, FMap.mapVal_id]
      · by_cases hemp : pl.filename = ""
        · left
          have hpe : ¬ p = "" := hemp ▸ hpt
          simp [apply_changes, hd, hi, hpt, hemp, hpe]
        · have hred : apply_changes env st fs pl = applyMove env pl.num pl.filename p false st fs := by
            simp [apply_changes, hd, hi, hpt, hemp]
          rw [hred]
          exact applyMove_op_cases env pl.num pl.filename p false st fs

/-- Disjointness of the key sets of two finite maps. -/
def DisjKeys (a b : FMap) : Prop :=
  ∀ k, FMap.lookup a k = none ∨ FMap.lookup b k = none

/-- Claim C10: a freshly constructed Operator has an empty resolved map,
and every apply_changes call — succeeding or failing — preserves
disjointness of the pending and resolved key sets. -/
theorem disjoint_invariant :
    (∀ init : FMap, (Operator.new init).dones = []) ∧
    (∀ (env : Env) (st : Operator) (fs : FileSys) (pl : ParsedLine),
      DisjKeys st.items st.dones →
      DisjKeys (apply_changes env st fs pl).op.items (apply_changes env st fs pl).op.dones) := by
  constructor
  · intro init
    rfl
  · intro env st fs pl h
    rcases apply_changes_op_cases env st fs pl with hc | hc | ⟨g, hc⟩ | ⟨f, hc⟩ <;> rw [hc] <;> intro k
    · exact h k
    · by_cases hk : k = pl.num
      · subst hk
        exact Or.inl (FMap.lookup_erase_self _ _)
      · rcases h k with h1 | h1
        · exact Or.inl ((FMap.lookup_erase_ne _ _ _ hk).trans h1)
        · exact Or.inr h1
    · rcases h k with h1 | h1
      · exact Or.inl ((FMap.lookup_mapVal g st.items k).trans (by rw [h1]; rfl))
      · exact Or.inr h1
    · by_cases hk : k = pl.num
      · subst hk
        exact Or.inl (FMap.lookup_erase_self _ _)
      · rcases h k with h1 | h1
        · exact Or.inl ((FMap.lookup_erase_ne _ _ _ hk).trans
            ((FMap.lookup_mapVal f st.items k).trans (by rw [h1]; rfl)))
        · exact Or.inr ((FMap.lookup_insertMap_ne _ _ _ _ hk).trans h1)

/-- Witness for disjoint_invariant at a concrete state and identifier. -/
theorem disjoint_invariant_witness :
    FMap.lookup (apply_changes env0 ⟨[(1, "a")], []⟩ [] ⟨1, "a"⟩).op.items 1 = none ∨
    FMap.lookup (apply_changes env0 ⟨[(1, "a")], []⟩ [] ⟨1, "a"⟩).op.dones 1 = none :=
  disjoint_invariant.2 env0 ⟨[(1, "a")], []⟩ [] ⟨1, "a"⟩ (fun _ => Or.inr rfl) 1

theorem toDigitsCore_len_lower (b : Nat) :
    ∀ (fuel n : Nat) (ds : List Char), ds.length ≤ (Nat.toDigitsCore b fuel n ds).length := by
  intro fuel
  induction fuel with
  | zero =>
    intro n ds
    simp [Nat.toDigitsCore]
  | succ f ih =>
    intro n ds
    rw [Nat.toDigitsCore]
    split
    · simp
    · exact le_trans (by simp) (ih (n / b) ((n % b).digitChar :: ds))

theorem repr_length_pos (n : Nat) : 0 < (Nat.repr n).length := by
  have h : 0 < (Nat.toDigits 10 n).length := by
    rw [Nat.toDigits, Nat.toDigitsCore]
    split
    · simp
    · exact lt_of_lt_of_le (by simp) (toDigitsCore_len_lower 10 n (n / 10) [(n % 10).digitChar])
  simpa [Nat.repr, List.asString, String.length] using h

/-- The sequence of candidate names actually proposed by the generator's
loop for a given input path: the path with a tilde appended, then each
successive counter value pushed onto the previous candidate. -/
def tmpProp (name : String) : Nat → String
  | 0 => name ++ "~"
  | k + 1 => tmpProp name k ++ Nat.repr (k + 1)

theorem tmpProp_len_lt (name : String) (k : Nat) :
    (tmpProp name k).length < (tmpProp name (k + 1)).length := by
  have h := repr_length_pos (k + 1)
  simp only [tmpProp, String.length_append]
  omega

theorem tmpProp_injective (name : String) : Function.Injective (tmpProp name) := by
  have hmono : StrictMono (fun k => (tmpProp name k).length) :=
    strictMono_nat_of_lt_succ (fun k => tmpProp_len_lt name k)
  intro a b hab
  exact hmono.injective (by rw [hab])

theorem tmpLoop_spec (fs : FileSys) (name : String) : ∀ (fuel k : Nat),
    (∃ m, k ≤ m ∧ m ≤ k + fuel ∧
      (tmpLoop fs fuel (tmpProp name k) (k + 1)).2 = tmpProp name m ∧
      pexists fs (tmpProp name m) = false ∧
      ∀ j, k ≤ j → j < m → pexists fs (tmpProp name j) = true) ∨
    (∀ j, k ≤ j → j ≤ k + fuel → pexists fs (tmpProp name j) = true) := by
  intro fuel
  induction fuel with
  | zero =>
    intro k
    cases hex : pexists fs (tmpProp name k) with
    | false =>
      left
      exact ⟨k, le_refl k, by omega, rfl, hex, fun j h1 h2 => by omega⟩
    | true =>
      right
      intro j h1 h2
      have hj : j = k := by omega
      subst hj
      exact hex
  | succ f ih =>
    intro k
    cases hex : pexists fs (tmpProp name k) with
    | false =>
      left
      refine ⟨k, le_refl k, by omega, ?_, hex, fun j h1 h2 => by omega⟩
      simp [tmpLoop, hex]
    | true =>
      have hstep : tmpLoop fs (f + 1) (tmpProp name k) (k + 1) =
          (tmpProp name k :: (tmpLoop fs f (tmpProp name (k + 1)) (k + 2)).1,
           (tmpLoop fs f (tmpProp name (k + 1)) (k + 2)).2) := by
        simp [tmpLoop, hex, tmpProp]
      rcases ih (k + 1) with ⟨m, h1, h2, h3, h4, h5⟩ | hall
      · left
        refine ⟨m, by omega, by omega, ?_, h4, ?_⟩
        · rw [hstep]
          exact h3
        · intro j hj1 hj2
          by_cases hjk : j = k
          · subst hjk
            exact hex
          · exact h5 j (by omega) hj2
      · right
        intro j hj1 hj2
        by_cases hjk : j = k
        · subst hjk
          exact hex
        · exact hall j (by omega) (by omega)

theorem pexists_mem_keys (fs : FileSys) (p : String) (h : pexists fs p = true) :
    p ∈ fs.map Prod.fst := by
  induction fs with
  | nil => simp [pexists, FileSys.lookup] at h
  | cons pe rest ih =>
    by_cases hp : pe.1 = p
    · simp [hp]
    · have h2 : pexists rest p = true := by
        simpa [pexists, FileSys.lookup, hp] using h
      simp [ih h2]

theorem tmp_all_exist_false (fs : FileSys) (name : String) :
    ¬ (∀ j, 0 ≤ j → j ≤ 0 + (fs.length + 1) → pexists fs (tmpProp name j) = true) := by
  intro hall
  have hnodup : ((List.range (fs.length + 2)).map (tmpProp name)).Nodup :=
    List.Nodup.map (tmpProp_injective name) (List.nodup_range _)
  have hsub : (List.range (fs.length + 2)).map (tmpProp name) ⊆ fs.map Prod.fst := by
    intro x hx
    rcases List.mem_map.mp hx with ⟨j, hj, rfl⟩
    have hj2 : j < fs.length + 2 := List.mem_range.mp hj
    exact pexists_mem_keys fs _ (hall j (by omega) (by omega))
  have hlen := (hnodup.subperm hsub).length_le
  simp at hlen

/-- Claim C8 as amended: for every input path the Temp-Name Generator first
proposes the path with a tilde appended (tmpProp name 0) and, whenever the
current proposal already exists on the filesystem, pushes the next counter
value onto the current proposal string (so the proposal sequence is name~,
name~1, name~12, name~123, ... — not name~1, name~2, name~3 as originally
claimed); every proposal before the returned one exists, and the returned
name does not exist at call time. -/
theorem tmp_name_charac (fs : FileSys) (name : String) :
    ∃ k, get_unique_tmp_name fs name = tmpProp name k ∧
      pexists fs (get_unique_tmp_name fs name) = false ∧
      ∀ j, j < k → pexists fs (tmpProp name j) = true := by
  rcases tmpLoop_spec fs name (fs.length + 1) 0 with ⟨m, _, _, h3, h4, h5⟩ | hall
  · refine ⟨m, h3, ?_, fun j hj => h5 j (by omega) hj⟩
    rw [show get_unique_tmp_name fs name = tmpProp name m from h3]
    exact h4
  · exact absurd hall (tmp_all_exist_false fs name)

deriving instance DecidableEq for Except

theorem tmpChecked_panics_aux (check : String → Except Nat Bool) (name : String) (e : Nat) :
    ∀ (fuel k j : Nat), j < fuel →
      (∀ i, k ≤ i → i < k + j → check (tmpProp name i) = Except.ok true) →
      check (tmpProp name (k + j)) = Except.error e →
      get_unique_tmp_nameChecked check fuel (tmpProp name k) (k + 1) = TmpOutcome.panicked e := by
  intro fuel
  induction fuel with
  | zero =>
    intro k j hj _ _
    omega
  | succ f ih =>
    intro k j hj hok herr
    cases j with
    | zero =>
      have h0 : check (tmpProp name k) = Except.error e := by simpa using herr
      simp [get_unique_tmp_nameChecked, h0]
    | succ j1 =>
      have h0 : check (tmpProp name k) = Except.ok true := hok k (le_refl k) (by omega)
      have hstep : get_unique_tmp_nameChecked check (f + 1) (tmpProp name k) (k + 1) =
          get_unique_tmp_nameChecked check f (tmpProp name (k + 1)) (k + 2) := by
        simp [get_unique_tmp_nameChecked, h0, tmpProp]
      rw [hstep]
      refine ih (k + 1) j1 (by omega) (fun i h1 h2 => hok i (by omega) (by omega)) ?_
      have hsh : k + 1 + j1 = k + (j1 + 1) := by omega
      rw [hsh]
      exact herr

/-- Claim C9 as amended: the Temp-Name Generator is a pure query (its model
is a function of the existence check and the input alone); whenever the
existence check errors at any probe the loop reaches — the first proposal,
or any later proposal after the earlier ones were reported existing — the
loop's .unwrap() aborts the process with that error: the outcome is a
panic, not a failure value returned to the caller, since the function's
return type (a plain String) has no failure channel. -/
theorem tmp_check_error_panics (check : String → Except Nat Bool) (name : String)
    (e k fuel : Nat) (hfuel : k < fuel)
    (hok : ∀ j, j < k → check (tmpProp name j) = Except.ok true)
    (herr : check (tmpProp name k) = Except.error e) :
    get_unique_tmp_nameChecked check fuel (name ++ "~") 1 = TmpOutcome.panicked e := by
  have h := tmpChecked_panics_aux check name e fuel 0 k hfuel
    (fun i h1 h2 => hok i (by omega)) (by simpa using herr)
  simpa [tmpProp] using h

/-- Witness for tmp_check_error_panics with an existence check that reports
the first probe "a~" as existing and errors with cause 7 on the second
probe "a~1": the generator panics with cause 7. -/
theorem tmp_check_error_panics_witness :
    get_unique_tmp_nameChecked
        (fun s => if s == "a~" then Except.ok true else Except.error 7) 2 ("a" ++ "~") 1 =
      TmpOutcome.panicked 7 :=
  tmp_check_error_panics (fun s => if s == "a~" then Except.ok true else Except.error 7)
    "a" 7 1 2 (by decide)
    (fun j hj => by
      have hj0 : j = 0 := by omega
      subst hj0
      decide)
    (by decide)

end Vidirr
